import Mathlib

/-
Verification development for the kapascan device-I/O core.

The Python sources are embedded shallowly:
  * bytes are `List Nat` (each element < 256 where it matters),
  * protocol text is `List Char`,
  * Python slicing (`l[a:b]`, negative indices included) is `pySlice`,
  * `struct.unpack` fields become explicit little-endian decoders on byte
    lists, with signed reinterpretation written out,
  * the blocking receive of `DataSocket._wait_for_data` is modelled by a
    finite schedule of receive events (`RecvEvent`); exhausting the schedule
    models the code blocking forever and is reported as `blocked`,
  * the unbounded `while received_points < data_points` loop of
    `DataSocket._get_data` is given fuel counting outer iterations; `none`
    means the fuel ran out (a model artifact, never reached in theorems).
-/

-- ===================== Python-semantics helpers =====================

/-- Normalisation of a Python slice index `i` against a list of length `n`:
negative indices count from the end and everything is clamped to `[0, n]`. -/
def pyIdx (n : Nat) (i : Int) : Nat :=
  if i < 0 then ((n : Int) + i).toNat else min i.toNat n

/-- Python slice `l[a:b]`. -/
def pySlice {α : Type} (l : List α) (a b : Int) : List α :=
  (l.take (pyIdx l.length b)).drop (pyIdx l.length a)

/-- Python slice `l[a:]`. -/
def pySliceFrom {α : Type} (l : List α) (a : Int) : List α :=
  l.drop (pyIdx l.length a)

/-- Little-endian value of a byte list (first byte least significant). -/
def leNat : List Nat → Nat
  | [] => 0
  | b :: bs => b + 256 * leNat bs

/-- `struct.unpack '<h'`: signed 16-bit little-endian. -/
def int16OfLe (bs : List Nat) : Int :=
  let u := leNat bs
  if u < 2 ^ 15 then (u : Int) else (u : Int) - 2 ^ 16

/-- `struct.unpack '<i'`: signed 32-bit little-endian. -/
def int32OfLe (bs : List Nat) : Int :=
  let u := leNat bs
  if u < 2 ^ 31 then (u : Int) else (u : Int) - 2 ^ 32

/-- `struct.unpack '<q'`: signed 64-bit little-endian. -/
def int64OfLe (bs : List Nat) : Int :=
  let u := leNat bs
  if u < 2 ^ 63 then (u : Int) else (u : Int) - 2 ^ 64

/-- Number of 1 bits in the binary expansion of a natural number, computed
with an explicit fuel argument (the number itself bounds the recursion
depth) so that the kernel can evaluate it. -/
def onesCountGo : Nat → Nat → Nat
  | _, 0 => 0
  | 0, _ + 1 => 0
  | f + 1, n + 1 => (n + 1) % 2 + onesCountGo f ((n + 1) / 2)

/-- Number of 1 bits in the binary expansion of a natural number. -/
def onesCount (n : Nat) : Nat := onesCountGo n n

/-- Python `'\x7b0:064b\x7d'.format(x).count('1')` for a signed integer `x`:
`format` renders a negative integer as a minus sign followed by the binary
digits of its absolute value (zero-padded), so the count of 1 digits is the
popcount of `|x|`, not of the 64-bit two's-complement pattern. -/
def pyBin64Ones (x : Int) : Nat := onesCount x.natAbs

/-- Python `max` on a list of ints (`none` models the `ValueError` on `[]`). -/
def pyMax : List Nat → Option Nat
  | [] => none
  | a :: l => some (l.foldl max a)

/-- Python substring test `needle in hay`. -/
def containsSub (needle : List Char) : List Char → Bool
  | [] => needle.isEmpty
  | c :: rest => needle.isPrefixOf (c :: rest) || containsSub needle rest

/-- Python `s.strip("\r\n")`: removes leading and trailing CR/LF characters. -/
def pyStripCRLF (s : List Char) : List Char :=
  ((s.dropWhile fun c => c == '\r' || c == '\n').reverse.dropWhile
    fun c => c == '\r' || c == '\n').reverse

-- ===================== binary frame decoder (controller.py DataSocket) ====

/-- The header fields returned by `DataSocket._parse_header`
(controller.py:375-395), in the source's own names. -/
structure Header where
  nr_of_channels : Nat
  nr_of_frames : Int
  bytes_per_frame : Int
  frame_counter : Int
  deriving DecidableEq, Repr

/-- `payload_size = bytes_per_frame * nr_of_frames` (controller.py:347). -/
def payloadSize (h : Header) : Int := h.bytes_per_frame * h.nr_of_frames

/-- `DataSocket._parse_header` (controller.py:375-395):
`struct.unpack('<iiiqihhi', data_stream[0:32])`, then
`nr_of_channels = '\x7b0:064b\x7d'.format(header[3]).count('1')`,
`nr_of_frames = header[6]`, `bytes_per_frame = header[5]`,
`frame_counter = header[7]`.  Field offsets in the 32-byte header:
q (channel bit-field) at 12..20, h at 24..26, h at 26..28, i at 28..32.
`none` models the `struct.error` raised when fewer than 32 bytes are given. -/
def parse_header (data_stream : List Nat) : Option Header :=
  let hd := pySlice data_stream 0 32
  if hd.length = 32 then
    some { nr_of_channels := pyBin64Ones (int64OfLe (pySlice hd 12 20))
         , nr_of_frames := int16OfLe (pySlice hd 26 28)
         , bytes_per_frame := int16OfLe (pySlice hd 24 26)
         , frame_counter := int32OfLe (pySlice hd 28 32) }
  else none

/-- One outcome of `self.data_socket.recv(65536)`: either a timeout
(`socket.timeout`) or a chunk of bytes. -/
inductive RecvEvent
  | timeout
  | chunk (data : List Nat)
  deriving DecidableEq, Repr

/-- The bytes a schedule of receive events delivers in total. -/
def flatBytes : List RecvEvent → List Nat
  | [] => []
  | RecvEvent.timeout :: rest => flatBytes rest
  | RecvEvent.chunk c :: rest => c ++ flatBytes rest

/-- The same schedule with the timeout events erased. -/
def removeTimeouts : List RecvEvent → List RecvEvent
  | [] => []
  | RecvEvent.timeout :: rest => removeTimeouts rest
  | RecvEvent.chunk c :: rest => RecvEvent.chunk c :: removeTimeouts rest

/-- The loop `while len(data_stream) < t: data_stream += self._wait_for_data()`
(controller.py:339-340 and 351-352), with `_wait_for_data`
(controller.py:368-373) inlined: a `socket.timeout` is swallowed and the
receive is retried (`continue`); a chunk is appended.  `none` models the code
blocking forever because no further data ever arrives. -/
def fillTo (buf : List Nat) (evs : List RecvEvent) (t : Int) :
    Option (List Nat × List RecvEvent) :=
  if (buf.length : Int) < t then
    match evs with
    | [] => none
    | RecvEvent.timeout :: rest => fillTo buf rest t
    | RecvEvent.chunk c :: rest => fillTo (buf ++ c) rest t
  else some (buf, evs)

/-- `channels` accumulation of `DataSocket._get_data` (controller.py:326-333):
collects each sensor's channel, `none` models the `ControllerError` raised on
a duplicate ("sensors connected to the same demodulator"). -/
def collectChannels (acc : List Nat) : List Nat → Option (List Nat)
  | [] => some acc
  | c :: cs => if c ∈ acc then none else collectChannels (acc ++ [c]) cs

/-- `np.frombuffer(frame, '<i4')`: consecutive little-endian int32 values
(an incomplete trailing group would make numpy raise; the length check is
done by the caller `frameValues`). -/
def int32sOfLe : List Nat → List Int
  | b0 :: b1 :: b2 :: b3 :: rest => int32OfLe [b0, b1, b2, b3] :: int32sOfLe rest
  | _ => []

/-- Numpy fancy indexing `arr[channels]`; `none` models the `IndexError`
raised when a channel index is out of bounds. -/
def npIndex (arr : List Int) : List Nat → Option (List Int)
  | [] => some []
  | c :: cs =>
    match arr[c]? with
    | none => none
    | some v =>
      match npIndex arr cs with
      | none => none
      | some vs => some (v :: vs)

/-- `np.frombuffer(frame, dtype)[channels]` (controller.py:358); `none`
models the numpy errors (length not a multiple of 4, or index out of
bounds). -/
def frameValues (frame : List Nat) (channels : List Nat) : Option (List Int) :=
  if frame.length % 4 = 0 then npIndex (int32sOfLe frame) channels else none

/-- The inner `for i in range(nr_of_frames)` loop of `DataSocket._get_data`
(controller.py:354-361): while `received_points < data_points`, slice frame
`i` out of the payload, pick the requested channels, store the row and
advance; otherwise break.  Arguments: current frame index `i`, remaining
frame count `rem`, the rows written so far. -/
def frameLoop (dp : Nat) (channels : List Nat) (payload : List Nat)
    (bpf : Int) : Nat → Nat → Nat → List (List Int) →
    Option (Nat × List (List Int))
  | _, 0, received, rows => some (received, rows)
  | i, rem + 1, received, rows =>
    if received < dp then
      match frameValues (pySlice payload ((i : Int) * bpf) (((i : Int) + 1) * bpf))
          channels with
      | none => none
      | some row =>
        frameLoop dp channels payload bpf (i + 1) rem (received + 1) (rows ++ [row])
    else some (received, rows)

/-- Results of a `DataSocket._get_data` run. -/
inductive GetDataResult
  | ok (rows : List (List Int))
  | sameDemodulator
  | insufficientChannels (n : Nat)
  | maxOfEmpty
  | structError
  | numpyError
  | blocked
  deriving DecidableEq, Repr

/-- The outer `while received_points < data_points` loop of
`DataSocket._get_data` (controller.py:338-362): fill the buffer to 32 bytes,
parse the header, compute `payload_size`, check the requested channels
against `nr_of_channels` (raising `ControllerError` = `insufficientChannels`
BEFORE any payload is fetched or sliced), fill to `32 + payload_size`, slice
the payload, run the frame loop, and drop the consumed packet from the
buffer.  On exit the collected rows are put on `in_queue` (both branches of
the final `if len(channels) == 1` put `data.T`, so the rows are returned
unchanged).  The fuel counts outer iterations; `none` = fuel ran out. -/
def getDataLoop (dp : Nat) (channels : List Nat) :
    Nat → Nat → List (List Int) → List Nat → List RecvEvent →
    Option GetDataResult
  | 0, _, _, _, _ => none
  | fuel + 1, received, rows, buf, evs =>
    if received < dp then
      match fillTo buf evs 32 with
      | none => some GetDataResult.blocked
      | some (buf1, evs1) =>
        match parse_header buf1 with
        | none => some GetDataResult.structError
        | some h =>
          let ps : Int := payloadSize h
          match pyMax channels with
          | none => some GetDataResult.maxOfEmpty
          | some m =>
            if h.nr_of_channels < m + 1 then
              some (GetDataResult.insufficientChannels h.nr_of_channels)
            else
              match fillTo buf1 evs1 (32 + ps) with
              | none => some GetDataResult.blocked
              | some (buf2, evs2) =>
                match frameLoop dp channels (pySlice buf2 32 (32 + ps))
                    h.bytes_per_frame 0 h.nr_of_frames.toNat received rows with
                | none => some GetDataResult.numpyError
                | some (received2, rows2) =>
                  getDataLoop dp channels fuel received2 rows2
                    (pySliceFrom buf2 (32 + ps)) evs2
    else some (GetDataResult.ok rows)

/-- `DataSocket._get_data(data_points, sensors)` (controller.py:305-366),
with `sensorChannels` the `sensor['channel']` of each entry of `sensors`. -/
def get_data (data_points : Nat) (sensorChannels : List Nat)
    (evs : List RecvEvent) (fuel : Nat) : Option GetDataResult :=
  match collectChannels [] sensorChannels with
  | none => some GetDataResult.sameDemodulator
  | some channels => getDataLoop data_points channels fuel 0 [] [] evs

-- ===================== synthetic packet encoding (for round-trip claims) ==

/-- Little-endian encoding of `v` into `w` bytes. -/
def encLe : Nat → Nat → List Nat
  | 0, _ => []
  | w + 1, v => v % 256 :: encLe w (v / 256)

/-- The channel bit-field advertising channels `0..k-1`: two bits per
channel, pattern `01` for a present channel, so bits `0, 2, …, 2(k-1)`. -/
def chField : Nat → Nat
  | 0 => 0
  | k + 1 => 4 * chField k + 1

/-- A synthetic 32-byte packet header with channel bit-field `cf`,
bytes-per-frame `bpf`, frame count `nf` and frame counter `fc` (preamble,
item number, serial number and the unused word are zero — the decoder never
reads them). -/
def encodeHeader (cf bpf nf fc : Nat) : List Nat :=
  encLe 4 0 ++ encLe 4 0 ++ encLe 4 0 ++ encLe 8 cf ++ encLe 4 0 ++
    encLe 2 bpf ++ encLe 2 nf ++ encLe 4 fc

/-- The rows a well-formed packet should decode to: frame `i` is bytes
`4k·i .. 4k·(i+1)` of the payload, read as `k` little-endian int32 values. -/
def expectedRows (k dp : Nat) (payload : List Nat) : List (List Int) :=
  (List.range dp).map fun i => int32sOfLe ((payload.drop (4 * k * i)).take (4 * k))

-- ===================== status-machine decoder (table.py SerialConnection) =

/-- Match a literal against the front of the input, returning the rest. -/
def stripLit : List Char → List Char → Option (List Char)
  | [], s => some s
  | _ :: _, [] => none
  | a :: lit, b :: s => if a == b then stripLit lit s else none

/-- Ascending positions of `c` in `l`. -/
def idxsOf (c : Char) : List Char → List Nat
  | [] => []
  | a :: t =>
    if a == c then 0 :: (idxsOf c t).map (· + 1) else (idxsOf c t).map (· + 1)

/-- Largest position of `c` in `l`, if any. -/
def lastIdxOf (c : Char) : List Char → Option Nat
  | [] => none
  | a :: t =>
    match lastIdxOf c t with
    | some j => some (j + 1)
    | none => if a == c then some 0 else none

/-
Each grbl regex of `SerialConnection.regex` (table.py:165-177) is compiled
by hand into a total matcher implementing Python `re.match` semantics
(anchored at the start, the rest of the line unconstrained, greedy
quantifiers with backtracking resolved as noted per pattern).  Every matcher
returns the tuple of captured groups on success.
-/

/-- `r"ok"`. -/
def matchOk (s : List Char) : Option (List (List Char)) :=
  (stripLit ("ok").data s).map fun _ => []

/-- `r"error:(\d+)"`: greedy `\d+` is exact (nothing follows it). -/
def matchError (s : List Char) : Option (List (List Char)) := do
  let r ← stripLit ("error:").data s
  let ds := r.takeWhile Char.isDigit
  if ds = [] then none else some [ds]

/-- The literal tail of the welcome pattern, ` ['$' for help]`
(`Char.ofNat 39` is the apostrophe). -/
def helpLit : List Char :=
  [' ', '[', Char.ofNat 39, '$', Char.ofNat 39, ' ', 'f', 'o', 'r', ' ',
   'h', 'e', 'l', 'p', ']']

/-- `r"Grbl (\d+\.\d+[a-z]) \['\$' for help]"`: each greedy `\d+` is exact
because the following literal is not a digit. -/
def matchWelcome (s : List Char) : Option (List (List Char)) := do
  let r1 ← stripLit ("Grbl ").data s
  let d1 := r1.takeWhile Char.isDigit
  if d1 = [] then none else
  let r2 ← stripLit ['.'] (r1.drop d1.length)
  let d2 := r2.takeWhile Char.isDigit
  if d2 = [] then none else
  match r2.drop d2.length with
  | [] => none
  | c :: r3 =>
    if c.isLower then
      (stripLit helpLit r3).map fun _ => [d1 ++ ['.'] ++ d2 ++ [c]]
    else none

/-- `r"ALARM:(\d)"`. -/
def matchAlarm (s : List Char) : Option (List (List Char)) := do
  let r ← stripLit ("ALARM:").data s
  match r with
  | [] => none
  | c :: _ => if c.isDigit then some [[c]] else none

/-- `r"\$(\d+)=(.+)"`: greedy `\d+` is exact (`=` is not a digit); `(.+)`
takes the maximal run of non-newline characters, nonempty. -/
def matchSetting (s : List Char) : Option (List (List Char)) := do
  let r ← stripLit ("$").data s
  let ds := r.takeWhile Char.isDigit
  if ds = [] then none else
  let r2 ← stripLit ("=").data (r.drop ds.length)
  let v := r2.takeWhile fun c => c != '\n'
  if v = [] then none else some [ds, v]

/-- `r"\$N(0|1)=(.*)"`. -/
def matchStartupLines (s : List Char) : Option (List (List Char)) := do
  let r ← stripLit ("$N").data s
  match r with
  | [] => none
  | c :: r2 =>
    if c == '0' || c == '1' then do
      let r3 ← stripLit ("=").data r2
      some [[c], r3.takeWhile fun x => x != '\n']
    else none

/-- `r"\[([A-Z0-9]\x7b2,3\x7d:.+)\]"`: after `[`, the greedy `\x7b2,3\x7d`
repetition tries 3 class characters then 2, each followed by `:` (no other
backtracking can succeed because `:` is not in the class); the greedy `.+`
then backtracks from the end, so the closing `]` is the LAST `]` in the
maximal non-newline run, and at least one content character must precede
it. -/
def matchMessage (s : List Char) : Option (List (List Char)) := do
  let r ← stripLit ("[").data s
  let cl := fun (c : Char) => c.isUpper || c.isDigit
  let hit ←
    match r with
    | a :: b :: c :: d :: rest =>
      if cl a && cl b && cl c && d == ':' then some ([a, b, c], rest)
      else match r with
        | a :: b :: c :: rest2 =>
          if cl a && cl b && c == ':' then some ([a, b], rest2) else none
        | _ => none
    | a :: b :: c :: rest2 =>
      if cl a && cl b && c == ':' then some ([a, b], rest2) else none
    | _ => none
  let (code, rest) := hit
  let run := rest.takeWhile fun c => c != '\n'
  match lastIdxOf ']' run with
  | none => none
  | some j => if 1 ≤ j then some [code ++ [':'] ++ run.take j] else none

/-- Does the tail match `(ok|error:\d+)` (the alternation at the end of the
startup-execution pattern)? -/
def startupTail (t : List Char) : Bool :=
  (stripLit ("ok").data t).isSome ||
    (match stripLit ("error:").data t with
     | some r => !(r.takeWhile Char.isDigit).isEmpty
     | none => false)

/-- The text the alternation `(ok|error:\d+)` captures from the tail. -/
def startupTailGroup (t : List Char) : List Char :=
  match stripLit ("ok").data t with
  | some _ => ("ok").data
  | none =>
    match stripLit ("error:").data t with
    | some r => ("error:").data ++ r.takeWhile Char.isDigit
    | none => []

/-- `r">(.*):(ok|error:\d+)"`: the greedy `(.*)` backtracks from the end, so
the matched `:` is the LAST colon in the maximal non-newline run whose tail
satisfies the alternation. -/
def matchStartupExecution (s : List Char) : Option (List (List Char)) := do
  let rest ← stripLit (">").data s
  let run := rest.takeWhile fun c => c != '\n'
  match (idxsOf ':' run).reverse.find? fun j => startupTail (rest.drop (j + 1)) with
  | none => none
  | some j => some [run.take j, startupTailGroup (rest.drop (j + 1))]

/-- `r"<([A-Za-z0-9:]\x7b3,5\x7d\|(MPos|WPos):([0-9.,-]+)(|\|.*)>"`: the
class of the first group excludes `|`, so only the full class run (length
3..5) can be followed by `|`; the greedy `([0-9.,-]+)` is exact because
neither `>` nor `|` is in its class; for `(|\|.*)` the empty branch is tried
first (so `>` immediately after the numbers wins), otherwise `\|.*`
backtracks to the LAST `>` in the maximal non-newline run. -/
def matchStatus (s : List Char) : Option (List (List Char)) := do
  let r ← stripLit ("<").data s
  let cl := fun (c : Char) => c.isAlpha || c.isDigit || c == ':'
  let srun := r.takeWhile cl
  if 3 ≤ srun.length && srun.length ≤ 5 then do
    let r2 ← stripLit ("|").data (r.drop srun.length)
    let hit ←
      match stripLit ("MPos").data r2 with
      | some rr => some (("MPos").data, rr)
      | none =>
        match stripLit ("WPos").data r2 with
        | some rr => some (("WPos").data, rr)
        | none => none
    let (posKind, r3) := hit
    let r4 ← stripLit (":").data r3
    let nrun := r4.takeWhile fun c => c.isDigit || c == '.' || c == ',' || c == '-'
    if nrun = [] then none else
    match r4.drop nrun.length with
    | '>' :: _ => some [srun, posKind, nrun, []]
    | '|' :: r5 =>
      let run := r5.takeWhile fun c => c != '\n'
      match lastIdxOf '>' run with
      | none => none
      | some j => some [srun, posKind, nrun, '|' :: run.take j]
    | _ => none
  else none

/-- `r"^$"`: `re.match` succeeds only on the empty string (or a lone
newline, before which `$` also asserts). -/
def matchEmpty (s : List Char) : Option (List (List Char)) :=
  if s = [] || s = ['\n'] then some [] else none

/-- `SerialConnection.regex` (table.py:165-177): the ordered pattern table,
in the source's insertion order. -/
def regexTable : List (String × (List Char → Option (List (List Char)))) :=
  [(("ok"), matchOk),
   (("error"), matchError),
   (("welcome_message"), matchWelcome),
   (("alarm"), matchAlarm),
   (("setting"), matchSetting),
   (("startup_lines"), matchStartupLines),
   (("message"), matchMessage),
   (("startup_execution"), matchStartupExecution),
   (("status"), matchStatus),
   (("empty"), matchEmpty)]

/-- First pattern of the table that matches, with its groups
(the `for key, pattern in self.regex.items()` loop of
`SerialConnection._message_parse`, table.py:334-340). -/
def firstMatch (tbl : List (String × (List Char → Option (List (List Char)))))
    (msg : List Char) : Option (String × List (List Char)) :=
  match tbl with
  | [] => none
  | (k, m) :: rest =>
    match m msg with
    | some gs => some (k, gs)
    | none => firstMatch rest msg

/-- Exceptions of the table.py serial layer. -/
inductive TableExc
  | grblError (code : List Char)
  | grblAlarm (code : List Char)
  | unrecognized (msg : List Char)
  | timeOut
  deriving DecidableEq, Repr

/-- `SerialConnection._message_parse` (table.py:310-343): first matching
pattern wins; no match raises `ConnectionError` ("Unrecognized response"). -/
def message_parse (msg : List Char) :
    Except TableExc (String × List (List Char)) :=
  match firstMatch regexTable msg with
  | some km => Except.ok km
  | none => Except.error (TableExc.unrecognized msg)

/-- One iteration of `SerialConnection._input` (table.py:275-292) for a raw
`readline()` result: an empty read is skipped (`if line:`); otherwise the
line is stripped of CR/LF and parsed; kind `error`/`alarm` raises
`GrblError(value[0])`/`GrblAlarm(value[0])` inside the loop, kind `empty` is
dropped (`continue`), everything else is enqueued.  `Except.ok none` = no
message enqueued, `Except.ok (some m)` = `m` enqueued, `Except.error e` =
the loop raised `e`. -/
def serial_input_line (rawLine : List Char) :
    Except TableExc (Option (String × List (List Char))) :=
  if rawLine = [] then Except.ok none
  else
    match message_parse (pyStripCRLF rawLine) with
    | Except.error e => Except.error e
    | Except.ok (key, value) =>
      if key = ("error") then Except.error (TableExc.grblError (value.headD []))
      else if key = ("alarm") then Except.error (TableExc.grblAlarm (value.headD []))
      else if key = ("empty") then Except.ok none
      else Except.ok (some (key, value))

/-- The input loop run over a whole schedule of received lines: messages are
enqueued in order until the first exception terminates the thread. -/
def serial_input_run : List (List Char) →
    List (String × List (List Char)) × Option TableExc
  | [] => ([], none)
  | l :: ls =>
    match serial_input_line l with
    | Except.error e => ([], some e)
    | Except.ok none => serial_input_run ls
    | Except.ok (some m) =>
      let (ms, e) := serial_input_run ls
      (m :: ms, e)

/-- `SerialConnection.command` (table.py:252-266), applied to the contents of
`in_queue`: collect messages until the acknowledging `ok`; an exhausted
queue raises `TimeOutError`. -/
def serial_command : List (String × List (List Char)) →
    Except TableExc (List (String × List (List Char)))
  | [] => Except.error TableExc.timeOut
  | m :: rest =>
    if m.1 = ("ok") then Except.ok [m]
    else (serial_command rest).map fun ans => m :: ans

/-- `GrblError.__init__` (table.py:119-128): the message is
`"Error \x7bi\x7d: \x7bdescription\x7d"` with the description looked up in the
code table; `none` models the `KeyError` a missing code raises (the lookup
fails loudly).
Modelled from the spec: the file `error_codes/error_codes_en_US.csv` is not
part of src/, so the code→description table is abstract here (`table`),
per the spec's "immutable table (code → message) built once at startup". -/
def grblErrorMessage (table : List Char → Option (List Char))
    (i : List Char) : Option (List Char) :=
  (table i).map fun d => ("Error ").data ++ i ++ (": ").data ++ d

-- ===================== line protocol decoder (controller.py ControlSocket)

/-- Exceptions of the controller.py control layer. -/
inductive CtrlExc
  | unknownCommand
  | wrongParameter
  | unexpectedLine (line : List Char)
  | noResponse (cmd : List Char)
  | unexpectedAnswer (ans cmd : List Char)
  deriving DecidableEq, Repr

/-- One iteration of `ControlSocket._input` (controller.py:159-172) for a raw
received line: an empty read is skipped; otherwise strip CR/LF; a line
containing `$UNKNOWN COMMAND` / `$WRONG PARAMETER` raises; a line ending in
`OK` is enqueued without its last two characters; anything else raises
`ControllerError` ("Unexpected response"). -/
def control_input_line (rawLine : List Char) :
    Except CtrlExc (Option (List Char)) :=
  if rawLine = [] then Except.ok none
  else
    let line := pyStripCRLF rawLine
    if containsSub ("$UNKNOWN COMMAND").data line then
      Except.error CtrlExc.unknownCommand
    else if containsSub ("$WRONG PARAMETER").data line then
      Except.error CtrlExc.wrongParameter
    else if (("OK").data).isSuffixOf line then
      Except.ok (some (pySlice line 0 (-2)))
    else Except.error (CtrlExc.unexpectedLine line)

/-- `ControlSocket.command` (controller.py:174-200), applied to the answer
dequeued from `in_queue` (`none` = the dequeue timed out): the answer must
start with `"$" + cmd`; that echo is stripped (`answer[len(cmd) + 1:]`),
otherwise `ControllerError` ("Unexpected response ... on command"). -/
def control_command (cmd : List Char) (answer : Option (List Char)) :
    Except CtrlExc (List Char) :=
  match answer with
  | none => Except.error (CtrlExc.noResponse cmd)
  | some ans =>
    if ('$' :: cmd).isPrefixOf ans then
      Except.ok (pySliceFrom ans ((cmd.length : Int) + 1))
    else Except.error (CtrlExc.unexpectedAnswer ans cmd)

-- ===================== generic I/O engine (base.py) =======================

/-- Result of `IOBase.command` (base.py:127-162). -/
inductive CmdResult
  | ret (response : Option (List Char))
  | timeoutErr (cmd : List Char)
  deriving DecidableEq, Repr

/-- `IOBase.command` (base.py:127-162): when the stop event is set the body
is skipped entirely — nothing is enqueued and `None` is returned, whatever
`get_response` says.  Otherwise the command is enqueued and, if a response
is expected, the inbound queue is polled (`inQueueFront`, `none` = the
`get` timed out, raising `TimeoutError`).  The second component records
whether `cmd` was put on `out_queue`. -/
def iobase_command (stopSet : Bool) (getResponse : Bool)
    (inQueueFront : Option (List Char)) (cmd : List Char) :
    CmdResult × Bool :=
  if stopSet = false then
    if getResponse then
      match inQueueFront with
      | some ans => (CmdResult.ret (some ans), true)
      | none => (CmdResult.timeoutErr cmd, true)
    else (CmdResult.ret none, true)
  else (CmdResult.ret none, false)

/-- `ExceptionThread.join` (base.py:22-29): the exception stored by `run`
(base.py:16-20) is re-raised to the joining caller. -/
def exception_thread_join {α : Type} (stored : Option α) : Except α Unit :=
  match stored with
  | some e => Except.error e
  | none => Except.ok ()

/-- `threading.Thread.join` for the plain threads started by
`ControlSocket.connect` (controller.py:122-126) and
`SerialConnection.connect` (table.py:211-215): an exception that terminated
the thread's target is NOT re-raised on join. -/
def plain_thread_join {α : Type} (stored : Option α) : Except α Unit :=
  Except.ok ()

/-- `IOBase.disconnect` (base.py:118-125): joins every `ExceptionThread` in
order; the first stored exception is re-raised. -/
def iobase_disconnect {α : Type} : List (Option α) → Except α Unit
  | [] => Except.ok ()
  | t :: ts =>
    match exception_thread_join t with
    | Except.error e => Except.error e
    | Except.ok _ => iobase_disconnect ts

/-- `SerialConnection.disconnect` (table.py:217-223) /
`ControlSocket.disconnect` (controller.py:128-134): joins plain threads, so
no loop exception is ever surfaced. -/
def serial_disconnect {α : Type} : List (Option α) → Except α Unit
  | [] => Except.ok ()
  | t :: ts =>
    match plain_thread_join t with
    | Except.error e => Except.error e
    | Except.ok _ => serial_disconnect ts

-- ===================== supporting lemmas ==================================

/-- Little-endian encoding length. -/
theorem encLe_length (w v : Nat) : (encLe w v).length = w := by
  induction w generalizing v with
  | zero => rfl
  | succ w ih => simp [encLe, ih]

theorem encLe_lt (w v : Nat) : ∀ b ∈ encLe w v, b < 256 := by
  induction w generalizing v with
  | zero => simp [encLe]
  | succ w ih =>
    simp only [encLe, List.mem_cons]
    rintro b (rfl | hb)
    · exact Nat.mod_lt _ (by norm_num)
    · exact ih _ _ hb

theorem leNat_encLe (w v : Nat) : leNat (encLe w v) = v % 256 ^ w := by
  induction w generalizing v with
  | zero => simp [encLe, leNat, Nat.mod_one]
  | succ w ih =>
    simp only [encLe, leNat, ih]
    rw [Nat.pow_succ, Nat.mul_comm (256 ^ w) 256, Nat.mod_mul]

theorem leNat_encLe_of_lt {w v : Nat} (h : v < 256 ^ w) :
    leNat (encLe w v) = v := by
  rw [leNat_encLe, Nat.mod_eq_of_lt h]

theorem int16OfLe_encLe {v : Nat} (h : v < 2 ^ 15) :
    int16OfLe (encLe 2 v) = (v : Int) := by
  have hv : v < 256 ^ 2 := by omega
  simp only [int16OfLe, leNat_encLe_of_lt hv]
  rw [if_pos h]

theorem int64OfLe_encLe {v : Nat} (h : v < 2 ^ 63) :
    int64OfLe (encLe 8 v) = (v : Int) := by
  have hv : v < 256 ^ 8 := by
    calc v < 2 ^ 63 := h
    _ ≤ 256 ^ 8 := by norm_num
  simp only [int64OfLe, leNat_encLe_of_lt hv]
  rw [if_pos h]

theorem int32OfLe_encLe {v : Nat} (h : v < 2 ^ 31) :
    int32OfLe (encLe 4 v) = (v : Int) := by
  have hv : v < 256 ^ 4 := by
    calc v < 2 ^ 31 := h
    _ ≤ 256 ^ 4 := by norm_num
  simp only [int32OfLe, leNat_encLe_of_lt hv]
  rw [if_pos h]

theorem onesCountGo_zero (f : Nat) : onesCountGo f 0 = 0 := by
  cases f <;> rfl

theorem onesCountGo_irrel : ∀ f f' n : Nat, n ≤ f → n ≤ f' →
    onesCountGo f n = onesCountGo f' n := by
  intro f
  induction f with
  | zero =>
    intro f' n hn _
    have hn0 : n = 0 := by omega
    subst hn0
    rw [onesCountGo_zero, onesCountGo_zero]
  | succ g ih =>
    intro f' n hn hn'
    cases n with
    | zero => rw [onesCountGo_zero, onesCountGo_zero]
    | succ m =>
      cases f' with
      | zero => omega
      | succ g' =>
        show (m + 1) % 2 + onesCountGo g ((m + 1) / 2) =
          (m + 1) % 2 + onesCountGo g' ((m + 1) / 2)
        rw [ih g' ((m + 1) / 2) (by omega) (by omega)]

theorem onesCount_succ (n : Nat) :
    onesCount (n + 1) = (n + 1) % 2 + onesCount ((n + 1) / 2) := by
  show onesCountGo (n + 1) (n + 1) = (n + 1) % 2 + onesCountGo ((n + 1) / 2) ((n + 1) / 2)
  show (n + 1) % 2 + onesCountGo n ((n + 1) / 2) = _
  rw [onesCountGo_irrel n ((n + 1) / 2) ((n + 1) / 2) (by omega) (by omega)]

theorem onesCount_two_mul (c : Nat) : onesCount (2 * c) = onesCount c := by
  cases c with
  | zero => rfl
  | succ c =>
    have h : 2 * (c + 1) = (2 * c + 1) + 1 := by omega
    rw [h, onesCount_succ]
    have h2 : (2 * c + 1 + 1) % 2 = 0 := by omega
    have h3 : (2 * c + 1 + 1) / 2 = c + 1 := by omega
    rw [h2, h3]
    omega

theorem onesCount_chField (k : Nat) : onesCount (chField k) = k := by
  induction k with
  | zero => rfl
  | succ k ih =>
    show onesCount (4 * chField k + 1) = k + 1
    rw [onesCount_succ]
    have h2 : (4 * chField k + 1) % 2 = 1 := by omega
    have h3 : (4 * chField k + 1) / 2 = 2 * chField k := by omega
    rw [h2, h3, onesCount_two_mul, ih]
    omega

theorem three_mul_chField (k : Nat) : 3 * chField k + 1 = 4 ^ k := by
  induction k with
  | zero => rfl
  | succ k ih =>
    show 3 * (4 * chField k + 1) + 1 = 4 ^ (k + 1)
    rw [Nat.pow_succ]
    omega

theorem chField_lt {k : Nat} (h : k ≤ 32) : chField k < 2 ^ 63 := by
  have h1 : 3 * chField k + 1 = 4 ^ k := three_mul_chField k
  have h2 : (4 : Nat) ^ k ≤ 4 ^ 32 := Nat.pow_le_pow_right (by norm_num) h
  have h3 : (4 : Nat) ^ 32 = 2 ^ 64 := by norm_num
  omega

theorem take_min {α : Type} (l : List α) (m : Nat) :
    l.take (min m l.length) = l.take m := by
  rcases Nat.le_total m l.length with h | h
  · rw [Nat.min_eq_left h]
  · rw [Nat.min_eq_right h, List.take_length, List.take_of_length_le h]

theorem drop_min {α : Type} (l : List α) (m n : Nat) (h : l.length ≤ n) :
    l.drop (min m n) = l.drop m := by
  rcases Nat.le_total m n with h' | h'
  · rw [Nat.min_eq_left h']
  · rw [Nat.min_eq_right h', List.drop_eq_nil_of_le h,
      List.drop_eq_nil_of_le (le_trans h h')]

theorem pySlice_nonneg {α : Type} (l : List α) (a b : Int)
    (ha : 0 ≤ a) (hb : 0 ≤ b) :
    pySlice l a b = (l.take b.toNat).drop a.toNat := by
  unfold pySlice pyIdx
  rw [if_neg (by omega), if_neg (by omega), take_min]
  exact drop_min _ _ _ (by rw [List.length_take]; exact Nat.min_le_right _ _)

theorem pySliceFrom_nonneg {α : Type} (l : List α) (a : Int) (ha : 0 ≤ a) :
    pySliceFrom l a = l.drop a.toNat := by
  unfold pySliceFrom pyIdx
  rw [if_neg (by omega)]
  exact drop_min _ _ _ (le_refl _)

theorem fillTo_some {t : Int} : ∀ {evs : List RecvEvent} {buf buf2 : List Nat}
    {evs2 : List RecvEvent}, fillTo buf evs t = some (buf2, evs2) →
    buf2 ++ flatBytes evs2 = buf ++ flatBytes evs ∧ t ≤ (buf2.length : Int) := by
  intro evs
  induction evs with
  | nil =>
    intro buf buf2 evs2 h
    unfold fillTo at h
    by_cases hlt : (buf.length : Int) < t
    · rw [if_pos hlt] at h; simp at h
    · rw [if_neg hlt] at h
      simp only [Option.some.injEq, Prod.mk.injEq] at h
      obtain ⟨rfl, rfl⟩ := h
      exact ⟨rfl, by omega⟩
  | cons e rest ih =>
    intro buf buf2 evs2 h
    unfold fillTo at h
    by_cases hlt : (buf.length : Int) < t
    · rw [if_pos hlt] at h
      cases e with
      | timeout =>
        have h2 := ih h
        simpa [flatBytes] using h2
      | chunk c =>
        have h2 := ih h
        refine ⟨?_, h2.2⟩
        rw [h2.1]
        simp [flatBytes]
    · rw [if_neg hlt] at h
      simp only [Option.some.injEq, Prod.mk.injEq] at h
      obtain ⟨rfl, rfl⟩ := h
      exact ⟨rfl, by omega⟩

theorem fillTo_none {t : Int} : ∀ {evs : List RecvEvent} {buf : List Nat},
    fillTo buf evs t = none →
    ((buf.length + (flatBytes evs).length : Nat) : Int) < t := by
  intro evs
  induction evs with
  | nil =>
    intro buf h
    unfold fillTo at h
    by_cases hlt : (buf.length : Int) < t
    · simp only [flatBytes, List.length_nil]
      push_cast
      omega
    · rw [if_neg hlt] at h; simp at h
  | cons e rest ih =>
    intro buf h
    unfold fillTo at h
    by_cases hlt : (buf.length : Int) < t
    · rw [if_pos hlt] at h
      cases e with
      | timeout =>
        have h2 := ih h
        simpa [flatBytes] using h2
      | chunk c =>
        have h2 := ih h
        simp only [flatBytes, List.length_append] at h2 ⊢
        push_cast at h2 ⊢
        omega
    · rw [if_neg hlt] at h; simp at h

theorem collectChannels_eq (l : List Nat) : ∀ acc : List Nat, l.Nodup →
    (∀ x ∈ l, x ∉ acc) → collectChannels acc l = some (acc ++ l) := by
  induction l with
  | nil => intro acc _ _; simp [collectChannels]
  | cons c cs ih =>
    intro acc hnd hdisj
    rw [List.nodup_cons] at hnd
    have hpre : ∀ x ∈ cs, x ∉ acc ++ [c] := by
      intro x hx
      simp only [List.mem_append, List.mem_singleton]
      push_neg
      refine ⟨fun hxa => hdisj x (List.mem_cons_of_mem _ hx) hxa, ?_⟩
      intro he
      exact hnd.1 (he ▸ hx)
    unfold collectChannels
    rw [if_neg (hdisj c (List.mem_cons_self c cs)), ih (acc ++ [c]) hnd.2 hpre]
    simp

theorem pyMax_append_single (l : List Nat) (x : Nat) :
    pyMax (l ++ [x]) = some ((pyMax l).elim x fun m => max m x) := by
  cases l with
  | nil => simp [pyMax]
  | cons a t => simp [pyMax, List.foldl_append]

theorem pyMax_range (k : Nat) : pyMax (List.range (k + 1)) = some k := by
  induction k with
  | zero => simp [List.range_succ, pyMax]
  | succ k ih =>
    rw [List.range_succ, pyMax_append_single, ih]
    simp [Option.elim, Nat.max_eq_right (Nat.le_succ k)]

theorem npIndex_range' (k : Nat) : ∀ (off : Nat) (arr : List Int),
    off + k ≤ arr.length →
    npIndex arr (List.range' off k) = some ((arr.drop off).take k) := by
  induction k with
  | zero =>
    intro off arr _
    simp [npIndex, List.range']
  | succ k ih =>
    intro off arr h
    rw [List.range'_succ]
    unfold npIndex
    have hoff : off < arr.length := by omega
    rw [List.getElem?_eq_getElem hoff, ih (off + 1) arr (by omega)]
    simp only [Option.some.injEq]
    rw [List.drop_eq_getElem_cons hoff, List.take_succ_cons]

theorem npIndex_full (arr : List Int) (k : Nat) (h : arr.length = k) :
    npIndex arr (List.range k) = some arr := by
  rw [List.range_eq_range', npIndex_range' k 0 arr (by omega)]
  simp [← h]

theorem int32sOfLe_length : ∀ l : List Nat, (int32sOfLe l).length = l.length / 4
  | [] => by simp [int32sOfLe]
  | [_] => by simp [int32sOfLe]
  | [_, _] => by simp [int32sOfLe]
  | [_, _, _] => by simp [int32sOfLe]
  | _ :: _ :: _ :: _ :: rest => by
    simp only [int32sOfLe, List.length_cons, int32sOfLe_length rest]
    omega

theorem encodeHeader_length (cf bpf nf fc : Nat) :
    (encodeHeader cf bpf nf fc).length = 32 := by
  simp [encodeHeader, encLe_length]

theorem parse_header_encode {cf bpf nf fc : Nat} (rest : List Nat)
    (hcf : cf < 2 ^ 63) (hb : bpf < 2 ^ 15) (hn : nf < 2 ^ 15)
    (hf : fc < 2 ^ 31) :
    parse_header (encodeHeader cf bpf nf fc ++ rest) =
      some { nr_of_channels := onesCount cf, nr_of_frames := (nf : Int),
             bytes_per_frame := (bpf : Int), frame_counter := (fc : Int) } := by
  have hlen := encodeHeader_length cf bpf nf fc
  have hhd : pySlice (encodeHeader cf bpf nf fc ++ rest) 0 32 =
      encodeHeader cf bpf nf fc := by
    rw [pySlice_nonneg _ _ _ (by norm_num) (by norm_num)]
    simp only [show (32 : Int).toNat = 32 from rfl,
      show (0 : Int).toNat = 0 from rfl, List.drop_zero]
    exact List.take_left' hlen
  have h12 : pySlice (encodeHeader cf bpf nf fc) 12 20 = encLe 8 cf := by
    rw [pySlice_nonneg _ _ _ (by norm_num) (by norm_num)]
    simp only [show (20 : Int).toNat = 20 from rfl,
      show (12 : Int).toNat = 12 from rfl]
    rw [List.drop_take]
    have hsplit : encodeHeader cf bpf nf fc =
        (encLe 4 0 ++ encLe 4 0 ++ encLe 4 0) ++
          (encLe 8 cf ++ (encLe 4 0 ++ (encLe 2 bpf ++ (encLe 2 nf ++ encLe 4 fc)))) := by
      simp [encodeHeader, List.append_assoc]
    rw [hsplit, List.drop_left' (by simp [encLe_length])]
    rw [List.take_left' (by simp [encLe_length])]
  have h26 : pySlice (encodeHeader cf bpf nf fc) 26 28 = encLe 2 nf := by
    rw [pySlice_nonneg _ _ _ (by norm_num) (by norm_num)]
    simp only [show (28 : Int).toNat = 28 from rfl,
      show (26 : Int).toNat = 26 from rfl]
    rw [List.drop_take]
    have hsplit : encodeHeader cf bpf nf fc =
        (encLe 4 0 ++ encLe 4 0 ++ encLe 4 0 ++ encLe 8 cf ++ encLe 4 0 ++ encLe 2 bpf) ++
          (encLe 2 nf ++ encLe 4 fc) := by
      simp [encodeHeader, List.append_assoc]
    rw [hsplit, List.drop_left' (by simp [encLe_length])]
    rw [List.take_left' (by simp [encLe_length])]
  have h24 : pySlice (encodeHeader cf bpf nf fc) 24 26 = encLe 2 bpf := by
    rw [pySlice_nonneg _ _ _ (by norm_num) (by norm_num)]
    simp only [show (26 : Int).toNat = 26 from rfl,
      show (24 : Int).toNat = 24 from rfl]
    rw [List.drop_take]
    have hsplit : encodeHeader cf bpf nf fc =
        (encLe 4 0 ++ encLe 4 0 ++ encLe 4 0 ++ encLe 8 cf ++ encLe 4 0) ++
          (encLe 2 bpf ++ (encLe 2 nf ++ encLe 4 fc)) := by
      simp [encodeHeader, List.append_assoc]
    rw [hsplit, List.drop_left' (by simp [encLe_length])]
    rw [List.take_left' (by simp [encLe_length])]
  have h28 : pySlice (encodeHeader cf bpf nf fc) 28 32 = encLe 4 fc := by
    rw [pySlice_nonneg _ _ _ (by norm_num) (by norm_num)]
    simp only [show (32 : Int).toNat = 32 from rfl,
      show (28 : Int).toNat = 28 from rfl]
    rw [List.drop_take]
    have hsplit : encodeHeader cf bpf nf fc =
        (encLe 4 0 ++ encLe 4 0 ++ encLe 4 0 ++ encLe 8 cf ++ encLe 4 0 ++
          encLe 2 bpf ++ encLe 2 nf) ++ encLe 4 fc := by
      simp [encodeHeader, List.append_assoc]
    rw [hsplit, List.drop_left' (by simp [encLe_length])]
    exact List.take_of_length_le (by simp [encLe_length])
  unfold parse_header
  rw [hhd, if_pos hlen, h12, h26, h24, h28]
  rw [int64OfLe_encLe hcf, int16OfLe_encLe hn, int16OfLe_encLe hb,
    int32OfLe_encLe hf]
  simp [pyBin64Ones]

theorem flatBytes_map_chunk (cs : List (List Nat)) :
    flatBytes (cs.map RecvEvent.chunk) = cs.flatten := by
  induction cs with
  | nil => rfl
  | cons c rest ih => simp [flatBytes, ih]

theorem frameLoop_wf {k n dp : Nat} {payload : List Nat}
    (hlen : payload.length = 4 * k * n) (hdp : dp ≤ n) :
    ∀ (rem i : Nat) (rows : List (List Int)), i + rem = n → i ≤ dp →
    frameLoop dp (List.range k) payload ((4 * k : Nat) : Int) i rem i rows =
      some (dp, rows ++ (List.range' i (dp - i)).map
        fun j => int32sOfLe ((payload.drop (4 * k * j)).take (4 * k))) := by
  intro rem
  induction rem with
  | zero =>
    intro i rows hin hidp
    have hieq : i = dp := by omega
    subst hieq
    simp [frameLoop, Nat.sub_self, List.range']
  | succ rem ih =>
    intro i rows hin hidp
    rcases Nat.lt_or_ge i dp with hlt | hge
    · have hslice : pySlice payload ((i : Int) * ((4 * k : Nat) : Int))
          (((i : Int) + 1) * ((4 * k : Nat) : Int)) =
          (payload.drop (4 * k * i)).take (4 * k) := by
        have e1 : ((i : Int) * ((4 * k : Nat) : Int)) = ((i * (4 * k) : Nat) : Int) := by
          push_cast; ring
        have e2 : (((i : Int) + 1) * ((4 * k : Nat) : Int)) =
            (((i + 1) * (4 * k) : Nat) : Int) := by
          push_cast; ring
        rw [e1, e2, pySlice_nonneg _ _ _ (by positivity) (by positivity),
          Int.toNat_natCast, Int.toNat_natCast, List.drop_take]
        have e3 : (i + 1) * (4 * k) - i * (4 * k) = 4 * k := by ring_nf; omega
        have e4 : i * (4 * k) = 4 * k * i := by ring
        rw [e3, e4]
      have hfrlen : ((payload.drop (4 * k * i)).take (4 * k)).length = 4 * k := by
        simp only [List.length_take, List.length_drop, hlen]
        have : i < n := by omega
        have : 4 * k * i + 4 * k ≤ 4 * k * n := by nlinarith
        omega
      have hfv : frameValues ((payload.drop (4 * k * i)).take (4 * k))
          (List.range k) =
          some (int32sOfLe ((payload.drop (4 * k * i)).take (4 * k))) := by
        unfold frameValues
        rw [if_pos (by omega)]
        exact npIndex_full _ _ (by rw [int32sOfLe_length, hfrlen]; omega)
      unfold frameLoop
      rw [if_pos hlt, hslice]
      simp only [hfv]
      rw [ih (i + 1) (rows ++ [int32sOfLe ((payload.drop (4 * k * i)).take (4 * k))])
          (by omega) (by omega)]
      have hr : dp - i = (dp - (i + 1)) + 1 := by omega
      rw [hr, List.range'_succ]
      simp [List.append_assoc]
    · have hieq : i = dp := by omega
      subst hieq
      unfold frameLoop
      rw [if_neg (lt_irrefl _)]
      simp [Nat.sub_self, List.range']

/-- Claim C2: a well-formed packet stream — header advertising `k` active
channels (two-bit field), `frameCount = n`, `bytesPerFrame = 4k`, followed by
`4k·n` payload bytes — decodes, for a request of `dp ≤ n` points on channels
`0..k-1`, to exactly the first `dp` frames of `k` little-endian int32 values
each, and this holds for EVERY way of splitting the byte stream into chunks
(the chunking, including a header split across chunk boundaries, is
universally quantified and the result does not depend on it). -/
theorem c2_roundtrip_chunked (k n dp fuel : Nat) (payload : List Nat)
    (chunks : List (List Nat))
    (hk1 : 1 ≤ k) (hk : k ≤ 32) (hn : n < 2 ^ 15) (hdp : dp ≤ n)
    (hlen : payload.length = 4 * k * n)
    (hchunks : chunks.flatten = encodeHeader (chField k) (4 * k) n 0 ++ payload)
    (hfuel : 2 ≤ fuel) :
    get_data dp (List.range k) (chunks.map RecvEvent.chunk) fuel =
      some (GetDataResult.ok (expectedRows k dp payload)) := by
  obtain ⟨f, rfl⟩ : ∃ f, fuel = f + 2 := ⟨fuel - 2, by omega⟩
  have hcoll : collectChannels [] (List.range k) = some (List.range k) := by
    have := collectChannels_eq (List.range k) [] (List.nodup_range k)
      (by intro x _ hx; simp at hx)
    simpa using this
  unfold get_data
  rw [hcoll]
  set S := encodeHeader (chField k) (4 * k) n 0 ++ payload with hS
  have hSlen : S.length = 32 + 4 * k * n := by
    simp [hS, encodeHeader_length, hlen]
  have hflat : flatBytes (chunks.map RecvEvent.chunk) = S := by
    rw [flatBytes_map_chunk, hchunks]
  rcases Nat.eq_zero_or_pos dp with hdp0 | hdp0
  · subst hdp0
    simp [getDataLoop, expectedRows]
  -- first iteration
  simp only [getDataLoop]
  rw [if_pos hdp0]
  cases hfill : fillTo [] (chunks.map RecvEvent.chunk) 32 with
  | none =>
    exfalso
    have := fillTo_none hfill
    rw [hflat] at this
    simp only [List.length_nil] at this
    rw [hSlen] at this
    omega
  | some p =>
    obtain ⟨buf1, evs1⟩ := p
    obtain ⟨heq1, hlen1⟩ := fillTo_some hfill
    simp only [List.nil_append] at heq1
    rw [hflat] at heq1
    have hlen1' : 32 ≤ buf1.length := by exact_mod_cast hlen1
    have hbuf1 : buf1 = encodeHeader (chField k) (4 * k) n 0 ++ buf1.drop 32 := by
      have htk : buf1.take 32 = encodeHeader (chField k) (4 * k) n 0 := by
        have h1 : (buf1 ++ flatBytes evs1).take 32 = buf1.take 32 := by
          rw [List.take_append_eq_append_take]
          have : 32 - buf1.length = 0 := by omega
          rw [this]
          simp
        have h2 : S.take 32 = encodeHeader (chField k) (4 * k) n 0 := by
          rw [hS]
          exact List.take_left' (encodeHeader_length _ _ _ _)
        rw [← h1, heq1, h2]
      conv_lhs => rw [← List.take_append_drop 32 buf1, htk]
    have hparse : parse_header buf1 =
        some { nr_of_channels := k, nr_of_frames := (n : Int),
               bytes_per_frame := ((4 * k : Nat) : Int),
               frame_counter := ((0 : Nat) : Int) } := by
      rw [hbuf1, parse_header_encode _ (chField_lt hk) (by omega) hn (by norm_num)]
      rw [onesCount_chField]
    simp only [hparse]
    obtain ⟨k', rfl⟩ : ∃ k', k = k' + 1 := ⟨k - 1, by omega⟩
    simp only [pyMax_range k']
    rw [if_neg (by omega)]
    have hps : payloadSize
        { nr_of_channels := k' + 1, nr_of_frames := (n : Int),
          bytes_per_frame := ((4 * (k' + 1) : Nat) : Int),
          frame_counter := ((0 : Nat) : Int) } = ((4 * (k' + 1) * n : Nat) : Int) := by
      simp only [payloadSize]
      push_cast
      ring
    rw [hps]
    have h32ps : ((32 : Int) + ((4 * (k' + 1) * n : Nat) : Int)) =
        ((32 + 4 * (k' + 1) * n : Nat) : Int) := by push_cast; ring
    cases hfill2 : fillTo buf1 evs1 (32 + ((4 * (k' + 1) * n : Nat) : Int)) with
    | none =>
      exfalso
      have hcontra := fillTo_none hfill2
      rw [h32ps] at hcontra
      have hlen2 : buf1.length + (flatBytes evs1).length = 32 + 4 * (k' + 1) * n := by
        have hx : (buf1 ++ flatBytes evs1).length = S.length := by rw [heq1]
        simpa [hSlen] using hx
      rw [hlen2] at hcontra
      exact absurd hcontra (lt_irrefl _)
    | some p2 =>
      obtain ⟨buf2, evs2⟩ := p2
      obtain ⟨heq2, hlen2⟩ := fillTo_some hfill2
      rw [heq1] at heq2
      rw [h32ps] at hlen2
      have hlen2' : 32 + 4 * (k' + 1) * n ≤ buf2.length := by exact_mod_cast hlen2
      have hlenS : buf2.length + (flatBytes evs2).length = S.length := by
        rw [← heq2]; simp
      have hfe : flatBytes evs2 = [] := by
        have : (flatBytes evs2).length = 0 := by rw [hSlen] at hlenS; omega
        exact List.eq_nil_of_length_eq_zero this
      have hbuf2S : buf2 = S := by
        rw [hfe] at heq2
        simpa using heq2
      subst hbuf2S
      have hpay : pySlice S 32 ((32 : Int) + ((4 * (k' + 1) * n : Nat) : Int)) =
          payload := by
        rw [h32ps, pySlice_nonneg _ _ _ (by norm_num) (by positivity),
          Int.toNat_natCast, show ((32 : Int).toNat = 32) from rfl]
        rw [List.take_of_length_le (by omega), hS,
          List.drop_left' (encodeHeader_length _ _ _ _)]
      have hdropS : pySliceFrom S ((32 : Int) + ((4 * (k' + 1) * n : Nat) : Int)) =
          [] := by
        rw [h32ps, pySliceFrom_nonneg _ _ (by positivity), Int.toNat_natCast]
        exact List.drop_eq_nil_of_le (by omega)
      have hfr := @frameLoop_wf (k' + 1) n dp payload hlen hdp n 0 []
        (by omega) (by omega)
      dsimp only
      rw [hpay]
      simp only [Int.toNat_natCast]
      rw [hfr]
      rw [hdropS]
      simp only [getDataLoop]
      rw [if_neg (lt_irrefl _)]
      have hrows : (List.range' 0 (dp - 0)).map
          (fun j => int32sOfLe ((payload.drop (4 * (k' + 1) * j)).take (4 * (k' + 1)))) =
          expectedRows (k' + 1) dp payload := by
        rw [Nat.sub_zero, expectedRows, List.range_eq_range']
      rw [List.nil_append, hrows]

/-- Claim C2 witness: a concrete `k = 1`, `n = 2` packet with payload values
1 and 2, decoded both from a chunking that SPLITS THE HEADER at byte 20 and
from a one-byte-per-chunk stream — both give the same two frames. -/
theorem c2_roundtrip_chunked_witness :
    get_data 2 (List.range 1)
      (([(encodeHeader (chField 1) 4 2 0 ++ [1, 0, 0, 0, 2, 0, 0, 0]).take 20,
        (encodeHeader (chField 1) 4 2 0 ++ [1, 0, 0, 0, 2, 0, 0, 0]).drop 20]).map
          RecvEvent.chunk) 2 =
      some (GetDataResult.ok (expectedRows 1 2 [1, 0, 0, 0, 2, 0, 0, 0])) ∧
    get_data 2 (List.range 1)
      (((encodeHeader (chField 1) 4 2 0 ++ [1, 0, 0, 0, 2, 0, 0, 0]).map
        fun b => [b]).map RecvEvent.chunk) 2 =
      some (GetDataResult.ok (expectedRows 1 2 [1, 0, 0, 0, 2, 0, 0, 0])) :=
  ⟨c2_roundtrip_chunked 1 2 2 2 [1, 0, 0, 0, 2, 0, 0, 0] _ (by decide) (by decide)
      (by decide) (by decide) (by decide) (by decide) (by decide),
   c2_roundtrip_chunked 1 2 2 2 [1, 0, 0, 0, 2, 0, 0, 0] _ (by decide) (by decide)
      (by decide) (by decide) (by decide) (by decide) (by decide)⟩

/-- Claim C8: whenever the parsed header advertises `nr_of_channels = k` and
the caller requests a channel index `m` with `m + 1 > k`, the decode fails
with `insufficientChannels` — and it does so on a stream carrying ONLY the
32 header bytes, i.e. before any payload has been received or sliced. -/
theorem c8_insufficient_channels (k b n fc dp fuel : Nat) (sens chans : List Nat)
    (chunks : List (List Nat)) (m : Nat)
    (hk : k ≤ 32) (hb : b < 2 ^ 15) (hn : n < 2 ^ 15) (hf : fc < 2 ^ 31)
    (hdp : 1 ≤ dp) (hfuel : 1 ≤ fuel)
    (hcoll : collectChannels [] sens = some chans)
    (hmax : pyMax chans = some m) (hex : k < m + 1)
    (hchunks : chunks.flatten = encodeHeader (chField k) b n fc) :
    get_data dp sens (chunks.map RecvEvent.chunk) fuel =
      some (GetDataResult.insufficientChannels k) := by
  obtain ⟨f, rfl⟩ : ∃ f, fuel = f + 1 := ⟨fuel - 1, by omega⟩
  unfold get_data
  rw [hcoll]
  have hflat : flatBytes (chunks.map RecvEvent.chunk) =
      encodeHeader (chField k) b n fc := by
    rw [flatBytes_map_chunk, hchunks]
  simp only [getDataLoop]
  rw [if_pos (by omega)]
  cases hfill : fillTo [] (chunks.map RecvEvent.chunk) 32 with
  | none =>
    exfalso
    have hc := fillTo_none hfill
    rw [hflat] at hc
    simp only [List.length_nil, encodeHeader_length] at hc
    omega
  | some p =>
    obtain ⟨buf1, evs1⟩ := p
    obtain ⟨heq1, hlen1⟩ := fillTo_some hfill
    simp only [List.nil_append] at heq1
    rw [hflat] at heq1
    have hlen1' : 32 ≤ buf1.length := by exact_mod_cast hlen1
    have hbuf1 : buf1 = encodeHeader (chField k) b n fc ++ buf1.drop 32 := by
      have htk : buf1.take 32 = encodeHeader (chField k) b n fc := by
        have h1 : (buf1 ++ flatBytes evs1).take 32 = buf1.take 32 := by
          rw [List.take_append_eq_append_take]
          have h0 : 32 - buf1.length = 0 := by omega
          rw [h0]
          simp
        have h2 : (encodeHeader (chField k) b n fc).take 32 =
            encodeHeader (chField k) b n fc :=
          List.take_of_length_le (by rw [encodeHeader_length])
        rw [← h1, heq1, h2]
      conv_lhs => rw [← List.take_append_drop 32 buf1, htk]
    have hparse : parse_header buf1 =
        some { nr_of_channels := k, nr_of_frames := (n : Int),
               bytes_per_frame := ((b : Nat) : Int),
               frame_counter := ((fc : Nat) : Int) } := by
      rw [hbuf1, parse_header_encode _ (chField_lt hk) hb hn hf, onesCount_chField]
    simp only [hparse]
    rw [hmax]
    dsimp only
    rw [if_pos (by omega)]

/-- Claim C8 witness: header advertising 2 channels, caller requesting
0-based channel index 2, stream carrying only the 32 header bytes. -/
theorem c8_insufficient_channels_witness :
    get_data 1 [2] ([encodeHeader (chField 2) 8 1 0].map RecvEvent.chunk) 1 =
      some (GetDataResult.insufficientChannels 2) :=
  c8_insufficient_channels 2 8 1 0 1 1 [2] [2] [encodeHeader (chField 2) 8 1 0] 2
    (by decide) (by decide) (by decide) (by decide) (by decide) (by decide)
    (by decide) (by decide) (by decide) (by simp)

theorem fillTo_rt (t : Int) : ∀ (evs : List RecvEvent) (buf : List Nat),
    fillTo buf (removeTimeouts evs) t =
      (fillTo buf evs t).map fun p => (p.1, removeTimeouts p.2) := by
  intro evs
  induction evs with
  | nil =>
    intro buf
    show fillTo buf [] t = _
    unfold fillTo
    by_cases hlt : (buf.length : Int) < t
    · rw [if_pos hlt]
      rfl
    · rw [if_neg hlt]
      rfl
  | cons e rest ih =>
    intro buf
    cases e with
    | timeout =>
      show fillTo buf (removeTimeouts rest) t =
        (fillTo buf (RecvEvent.timeout :: rest) t).map fun p => (p.1, removeTimeouts p.2)
      by_cases hlt : (buf.length : Int) < t
      · have hR : fillTo buf (RecvEvent.timeout :: rest) t = fillTo buf rest t := by
          conv_lhs => unfold fillTo
          rw [if_pos hlt]
        rw [hR]
        exact ih buf
      · have hR : fillTo buf (RecvEvent.timeout :: rest) t =
            some (buf, RecvEvent.timeout :: rest) := by
          conv_lhs => unfold fillTo
          rw [if_neg hlt]
        have hL : fillTo buf (removeTimeouts rest) t =
            some (buf, removeTimeouts rest) := by
          conv_lhs => unfold fillTo
          rw [if_neg hlt]
        rw [hR, hL]
        rfl
    | chunk c =>
      show fillTo buf (RecvEvent.chunk c :: removeTimeouts rest) t =
        (fillTo buf (RecvEvent.chunk c :: rest) t).map fun p => (p.1, removeTimeouts p.2)
      by_cases hlt : (buf.length : Int) < t
      · have hR : fillTo buf (RecvEvent.chunk c :: rest) t = fillTo (buf ++ c) rest t := by
          conv_lhs => unfold fillTo
          rw [if_pos hlt]
        have hL : fillTo buf (RecvEvent.chunk c :: removeTimeouts rest) t =
            fillTo (buf ++ c) (removeTimeouts rest) t := by
          conv_lhs => unfold fillTo
          rw [if_pos hlt]
        rw [hR, hL]
        exact ih (buf ++ c)
      · have hR : fillTo buf (RecvEvent.chunk c :: rest) t =
            some (buf, RecvEvent.chunk c :: rest) := by
          conv_lhs => unfold fillTo
          rw [if_neg hlt]
        have hL : fillTo buf (RecvEvent.chunk c :: removeTimeouts rest) t =
            some (buf, RecvEvent.chunk c :: removeTimeouts rest) := by
          conv_lhs => unfold fillTo
          rw [if_neg hlt]
        rw [hR, hL]
        rfl

theorem getDataLoop_rt (dp : Nat) (ch : List Nat) : ∀ (fuel r : Nat)
    (rows : List (List Int)) (buf : List Nat) (evs : List RecvEvent),
    getDataLoop dp ch fuel r rows buf (removeTimeouts evs) =
      getDataLoop dp ch fuel r rows buf evs := by
  intro fuel
  induction fuel with
  | zero => intro r rows buf evs; rfl
  | succ fuel ih =>
    intro r rows buf evs
    simp only [getDataLoop]
    by_cases hr : r < dp
    · rw [if_pos hr, if_pos hr, fillTo_rt]
      cases hfill : fillTo buf evs 32 with
      | none => rfl
      | some p =>
        obtain ⟨buf1, evs1⟩ := p
        dsimp only [Option.map]
        cases hparse : parse_header buf1 with
        | none => rfl
        | some h =>
          dsimp only
          cases hm : pyMax ch with
          | none => rfl
          | some m =>
            dsimp only
            by_cases hch : h.nr_of_channels < m + 1
            · rw [if_pos hch, if_pos hch]
            · rw [if_neg hch, if_neg hch, fillTo_rt]
              cases hfill2 : fillTo buf1 evs1 (32 + payloadSize h) with
              | none => rfl
              | some p2 =>
                obtain ⟨buf2, evs2⟩ := p2
                dsimp only [Option.map]
                cases hfl : frameLoop dp ch (pySlice buf2 32 (32 + payloadSize h))
                    h.bytes_per_frame 0 h.nr_of_frames.toNat r rows with
                | none => rfl
                | some q =>
                  obtain ⟨r2, rows2⟩ := q
                  dsimp only
                  exact ih r2 rows2 _ evs2
    · rw [if_neg hr, if_neg hr]

theorem frameLoop_received {dp : Nat} {ch payload : List Nat} {bpf : Int} :
    ∀ (rem i r : Nat) (rows : List (List Int)) (r2 : Nat)
      (rows2 : List (List Int)),
    frameLoop dp ch payload bpf i rem r rows = some (r2, rows2) →
    r ≤ dp → rows.length = r → rows2.length = r2 ∧ r2 ≤ dp := by
  intro rem
  induction rem with
  | zero =>
    intro i r rows r2 rows2 h hr hl
    unfold frameLoop at h
    simp only [Option.some.injEq, Prod.mk.injEq] at h
    obtain ⟨rfl, rfl⟩ := h
    exact ⟨hl, hr⟩
  | succ rem ih =>
    intro i r rows r2 rows2 h hr hl
    unfold frameLoop at h
    by_cases hlt : r < dp
    · rw [if_pos hlt] at h
      cases hfv : frameValues
          (pySlice payload ((i : Int) * bpf) (((i : Int) + 1) * bpf)) ch with
      | none => rw [hfv] at h; simp at h
      | some row =>
        rw [hfv] at h
        dsimp only at h
        have := ih (i + 1) (r + 1) (rows ++ [row]) r2 rows2 h (by omega)
          (by simp [hl])
        exact this
    · rw [if_neg hlt] at h
      simp only [Option.some.injEq, Prod.mk.injEq] at h
      obtain ⟨rfl, rfl⟩ := h
      exact ⟨hl, hr⟩

theorem getDataLoop_ok_len (dp : Nat) (ch : List Nat) : ∀ (fuel r : Nat)
    (rows : List (List Int)) (buf : List Nat) (evs : List RecvEvent)
    (rows2 : List (List Int)),
    getDataLoop dp ch fuel r rows buf evs = some (GetDataResult.ok rows2) →
    r ≤ dp → rows.length = r → rows2.length = dp := by
  intro fuel
  induction fuel with
  | zero => intro r rows buf evs rows2 h; simp [getDataLoop] at h
  | succ fuel ih =>
    intro r rows buf evs rows2 h hr hl
    simp only [getDataLoop] at h
    by_cases hlt : r < dp
    · rw [if_pos hlt] at h
      cases hfill : fillTo buf evs 32 with
      | none => rw [hfill] at h; simp at h
      | some p =>
        obtain ⟨buf1, evs1⟩ := p
        rw [hfill] at h
        dsimp only at h
        cases hparse : parse_header buf1 with
        | none => rw [hparse] at h; simp at h
        | some hd =>
          rw [hparse] at h
          dsimp only at h
          cases hm : pyMax ch with
          | none => rw [hm] at h; simp at h
          | some m =>
            rw [hm] at h
            dsimp only at h
            by_cases hch : hd.nr_of_channels < m + 1
            · rw [if_pos hch] at h; simp at h
            · rw [if_neg hch] at h
              cases hfill2 : fillTo buf1 evs1 (32 + payloadSize hd) with
              | none => rw [hfill2] at h; simp at h
              | some p2 =>
                obtain ⟨buf2, evs2⟩ := p2
                rw [hfill2] at h
                dsimp only at h
                cases hfl : frameLoop dp ch (pySlice buf2 32 (32 + payloadSize hd))
                    hd.bytes_per_frame 0 hd.nr_of_frames.toNat r rows with
                | none => rw [hfl] at h; simp at h
                | some q =>
                  obtain ⟨r2, rows3⟩ := q
                  rw [hfl] at h
                  dsimp only at h
                  obtain ⟨hlen3, hr2⟩ := frameLoop_received _ _ _ _ _ _ hfl hr hl
                  exact ih r2 rows3 _ evs2 rows2 h hr2 hlen3
    · rw [if_neg hlt] at h
      simp only [Option.some.injEq, GetDataResult.ok.injEq] at h
      subst h
      omega

/-- Claim C3 counterexample: a stream in which a receive timeout occurs
after 20 header bytes (0 samples collected so far).  The claim predicts the
decode aborts and returns the samples collected so far (none); the code
(`_wait_for_data`, controller.py:368-373) swallows the timeout with
`continue`, keeps receiving, and returns the FULL 2 requested samples. -/
theorem c3_counterexample :
    get_data 2 [0]
      [RecvEvent.chunk
        ((encodeHeader (chField 1) 4 2 0 ++ [1, 0, 0, 0, 2, 0, 0, 0]).take 20),
       RecvEvent.timeout,
       RecvEvent.chunk
        ((encodeHeader (chField 1) 4 2 0 ++ [1, 0, 0, 0, 2, 0, 0, 0]).drop 20)]
      3 = some (GetDataResult.ok [[1], [2]]) ∧
    some (GetDataResult.ok [[1], [2]]) ≠
      some (GetDataResult.ok ([] : List (List Int))) := by
  exact ⟨by decide, by decide⟩

/-- Claim C3 amended: a receive timeout does NOT abort the decode — timeouts
are swallowed and retried by `_wait_for_data`, so the result is identical to
the result on the same stream with every timeout erased; consequently the
decoder never returns a partial result: whenever it returns `ok rows`, it
has collected exactly the full requested `data_points` rows (if the data
never arrives it blocks forever instead of returning partial data). -/
theorem c3_amended :
    (∀ (dp fuel : Nat) (sens : List Nat) (evs : List RecvEvent),
      get_data dp sens (removeTimeouts evs) fuel = get_data dp sens evs fuel) ∧
    (∀ (dp fuel : Nat) (sens : List Nat) (evs : List RecvEvent)
      (rows : List (List Int)),
      get_data dp sens evs fuel = some (GetDataResult.ok rows) →
      rows.length = dp) := by
  constructor
  · intro dp fuel sens evs
    unfold get_data
    cases hc : collectChannels [] sens with
    | none => rfl
    | some ch => exact getDataLoop_rt dp ch fuel 0 [] [] evs
  · intro dp fuel sens evs rows h
    unfold get_data at h
    cases hc : collectChannels [] sens with
    | none => rw [hc] at h; simp at h
    | some ch =>
      rw [hc] at h
      exact getDataLoop_ok_len dp ch fuel 0 [] [] evs rows h (by omega) rfl

/-- Claim C3 amended witness: on the concrete timeout-interrupted stream of
the counterexample, erasing the timeout gives the same result, and the `ok`
result carries exactly the 2 requested rows. -/
theorem c3_amended_witness :
    get_data 2 [0]
      (removeTimeouts
        [RecvEvent.chunk
          ((encodeHeader (chField 1) 4 2 0 ++ [1, 0, 0, 0, 2, 0, 0, 0]).take 20),
         RecvEvent.timeout,
         RecvEvent.chunk
          ((encodeHeader (chField 1) 4 2 0 ++ [1, 0, 0, 0, 2, 0, 0, 0]).drop 20)])
      3 =
      get_data 2 [0]
        [RecvEvent.chunk
          ((encodeHeader (chField 1) 4 2 0 ++ [1, 0, 0, 0, 2, 0, 0, 0]).take 20),
         RecvEvent.timeout,
         RecvEvent.chunk
          ((encodeHeader (chField 1) 4 2 0 ++ [1, 0, 0, 0, 2, 0, 0, 0]).drop 20)]
        3 ∧
    ([[1], [2]] : List (List Int)).length = 2 :=
  ⟨c3_amended.1 2 3 [0] _,
   c3_amended.2 2 3 [0]
     [RecvEvent.chunk
       ((encodeHeader (chField 1) 4 2 0 ++ [1, 0, 0, 0, 2, 0, 0, 0]).take 20),
      RecvEvent.timeout,
      RecvEvent.chunk
       ((encodeHeader (chField 1) 4 2 0 ++ [1, 0, 0, 0, 2, 0, 0, 0]).drop 20)]
     [[1], [2]] (by decide)⟩

/-- Claim C5 counterexample: a 32-byte header whose channel bit-field bytes
are all `0xFF`.  `struct.unpack '<q'` reads the signed value −1, Python's
`'\x7b0:064b\x7d'.format(-1).count('1')` counts the single 1 digit of
`|−1| = 1`, so the code derives `nr_of_channels = 1`; the popcount of the
64-bit bit-field is 64 — the claim's "popcount of the channel bit-field"
does not hold for this buffer. -/
theorem c5_counterexample :
    (parse_header (encodeHeader (2 ^ 64 - 1) 8 2 0)).map Header.nr_of_channels =
      some 1 ∧
    onesCount (leNat (((encodeHeader (2 ^ 64 - 1) 8 2 0).take 20).drop 12)) = 64 ∧
    (1 : Nat) ≠ 64 := by
  exact ⟨by decide, by decide, by decide⟩

/-- Claim C5 amended: for every buffer of at least 32 bytes the parse reads
exactly the claimed little-endian layout (channel bit-field at offsets
12..20, bytes-per-frame at 24..26, frame count at 26..28, frame counter at
28..32), and derives `activeChannelCount` as the popcount of the ABSOLUTE
VALUE of the signed int64 channel field — which equals the popcount of the
bit-field whenever the field's top bit is clear (true of every well-formed
two-bits-per-channel encoding); `payloadSize` is bytes-per-frame times
frame count. -/
theorem c5_amended (ds : List Nat) (h32 : 32 ≤ ds.length) :
    parse_header ds = some
      { nr_of_channels := onesCount (int64OfLe ((ds.take 20).drop 12)).natAbs
      , nr_of_frames := int16OfLe ((ds.take 28).drop 26)
      , bytes_per_frame := int16OfLe ((ds.take 26).drop 24)
      , frame_counter := int32OfLe ((ds.take 32).drop 28) } ∧
    (leNat ((ds.take 20).drop 12) < 2 ^ 63 →
      (int64OfLe ((ds.take 20).drop 12)).natAbs = leNat ((ds.take 20).drop 12)) ∧
    (∀ h : Header, payloadSize h = h.bytes_per_frame * h.nr_of_frames) := by
  refine ⟨?_, ?_, fun h => rfl⟩
  · have hhd : pySlice ds 0 32 = ds.take 32 := by
      rw [pySlice_nonneg _ _ _ (by norm_num) (by norm_num)]
      simp only [show (32 : Int).toNat = 32 from rfl,
        show (0 : Int).toNat = 0 from rfl, List.drop_zero]
    have hlen : (ds.take 32).length = 32 := by
      rw [List.length_take]
      omega
    have hsl : ∀ a b : Nat, b ≤ 32 →
        pySlice (ds.take 32) (a : Int) (b : Int) = (ds.take b).drop a := by
      intro a b hb
      rw [pySlice_nonneg _ _ _ (by positivity) (by positivity),
        Int.toNat_natCast, Int.toNat_natCast, List.take_take,
        Nat.min_eq_left hb]
    unfold parse_header
    rw [hhd, if_pos hlen]
    rw [show (12 : Int) = ((12 : Nat) : Int) from rfl,
      show (20 : Int) = ((20 : Nat) : Int) from rfl,
      show (26 : Int) = ((26 : Nat) : Int) from rfl,
      show (28 : Int) = ((28 : Nat) : Int) from rfl,
      show (24 : Int) = ((24 : Nat) : Int) from rfl,
      show (32 : Int) = ((32 : Nat) : Int) from rfl]
    rw [hsl 12 20 (by omega), hsl 26 28 (by omega), hsl 24 26 (by omega),
      hsl 28 32 (by omega)]
    rfl
  · intro hlt
    unfold int64OfLe
    rw [if_pos hlt]
    exact Int.natAbs_ofNat _

/-- Claim C5 amended witness: the amended statement evaluated on a concrete
well-formed header (3 channels, bytes-per-frame 12, frame count 5). -/
theorem c5_amended_witness :
    parse_header (encodeHeader (chField 3) 12 5 9) = some
      { nr_of_channels :=
          onesCount (int64OfLe (((encodeHeader (chField 3) 12 5 9).take 20).drop 12)).natAbs
      , nr_of_frames := int16OfLe (((encodeHeader (chField 3) 12 5 9).take 28).drop 26)
      , bytes_per_frame := int16OfLe (((encodeHeader (chField 3) 12 5 9).take 26).drop 24)
      , frame_counter := int32OfLe (((encodeHeader (chField 3) 12 5 9).take 32).drop 28) } ∧
    (leNat (((encodeHeader (chField 3) 12 5 9).take 20).drop 12) < 2 ^ 63 →
      (int64OfLe (((encodeHeader (chField 3) 12 5 9).take 20).drop 12)).natAbs =
        leNat (((encodeHeader (chField 3) 12 5 9).take 20).drop 12)) ∧
    (∀ h : Header, payloadSize h = h.bytes_per_frame * h.nr_of_frames) :=
  c5_amended (encodeHeader (chField 3) 12 5 9) (by decide)

theorem firstMatch_none_iff
    (tbl : List (String × (List Char → Option (List (List Char)))))
    (msg : List Char) :
    firstMatch tbl msg = none ↔ ∀ p ∈ tbl, p.2 msg = none := by
  induction tbl with
  | nil => simp [firstMatch]
  | cons hd rest ih =>
    obtain ⟨k0, m0⟩ := hd
    unfold firstMatch
    cases hm : m0 msg with
    | some gs0 =>
      simp only [List.mem_cons]
      constructor
      · intro h; simp at h
      · intro h
        have := h (k0, m0) (Or.inl rfl)
        simp only at this
        rw [hm] at this
        simp at this
    | none =>
      rw [ih]
      constructor
      · intro h p hp
        rcases List.mem_cons.mp hp with rfl | hp'
        · exact hm
        · exact h p hp'
      · intro h p hp
        exact h p (List.mem_cons_of_mem _ hp)

theorem firstMatch_some_iff
    (tbl : List (String × (List Char → Option (List (List Char)))))
    (msg : List Char) (k : String) (gs : List (List Char)) :
    firstMatch tbl msg = some (k, gs) ↔
      ∃ pre m post, tbl = pre ++ (k, m) :: post ∧ m msg = some gs ∧
        ∀ p ∈ pre, p.2 msg = none := by
  induction tbl with
  | nil =>
    simp only [firstMatch]
    constructor
    · intro h; simp at h
    · rintro ⟨pre, m, post, heq, -, -⟩
      exact absurd heq.symm (List.append_ne_nil_of_right_ne_nil pre (by simp))
  | cons hd rest ih =>
    obtain ⟨k0, m0⟩ := hd
    unfold firstMatch
    cases hm : m0 msg with
    | some gs0 =>
      constructor
      · intro h
        simp only [Option.some.injEq, Prod.mk.injEq] at h
        obtain ⟨rfl, rfl⟩ := h
        exact ⟨[], m0, rest, rfl, hm, by simp⟩
      · rintro ⟨pre, m, post, heq, hmm, hpre⟩
        cases pre with
        | nil =>
          simp only [List.nil_append, List.cons.injEq, Prod.mk.injEq] at heq
          obtain ⟨⟨rfl, rfl⟩, rfl⟩ := heq
          rw [hm] at hmm
          simp only [Option.some.injEq] at hmm
          rw [hmm]
        | cons q pre' =>
          simp only [List.cons_append, List.cons.injEq] at heq
          obtain ⟨rfl, -⟩ := heq
          have := hpre (k0, m0) (List.mem_cons_self _ _)
          simp only at this
          rw [hm] at this
          simp at this
    | none =>
      rw [ih]
      constructor
      · rintro ⟨pre, m, post, heq, hmm, hpre⟩
        refine ⟨(k0, m0) :: pre, m, post, by rw [heq]; rfl, hmm, ?_⟩
        intro p hp
        rcases List.mem_cons.mp hp with rfl | hp'
        · exact hm
        · exact hpre p hp'
      · rintro ⟨pre, m, post, heq, hmm, hpre⟩
        cases pre with
        | nil =>
          simp only [List.nil_append, List.cons.injEq, Prod.mk.injEq] at heq
          obtain ⟨⟨rfl, rfl⟩, rfl⟩ := heq
          rw [hm] at hmm
          simp at hmm
        | cons q pre' =>
          simp only [List.cons_append, List.cons.injEq] at heq
          obtain ⟨rfl, htl⟩ := heq
          exact ⟨pre', m, post, htl, hmm, fun p hp =>
            hpre p (List.mem_cons_of_mem _ hp)⟩

/-- Claim C4: the status-machine classifier tests the fixed pattern table in
exactly the stated priority order (ok, error, welcome message, alarm,
setting, startup line, informational message, startup execution, status
report, empty); a classified line corresponds to the FIRST table entry whose
pattern matches (every earlier pattern fails on it); a line matched by no
pattern — and only such a line — fails with the unrecognized-response
error instead of receiving a default category. -/
theorem c4_classification :
    (regexTable.map Prod.fst =
      [("ok"), ("error"), ("welcome_message"), ("alarm"), ("setting"),
       ("startup_lines"), ("message"), ("startup_execution"), ("status"),
       ("empty")]) ∧
    (∀ (msg : List Char) (k : String) (gs : List (List Char)),
      message_parse msg = Except.ok (k, gs) →
      ∃ pre m post, regexTable = pre ++ (k, m) :: post ∧ m msg = some gs ∧
        ∀ p ∈ pre, p.2 msg = none) ∧
    (∀ msg : List Char, (∀ p ∈ regexTable, p.2 msg = none) →
      message_parse msg = Except.error (TableExc.unrecognized msg)) ∧
    (∀ (msg : List Char) (e : TableExc),
      message_parse msg = Except.error e →
      e = TableExc.unrecognized msg ∧ ∀ p ∈ regexTable, p.2 msg = none) := by
  refine ⟨rfl, ?_, ?_, ?_⟩
  · intro msg k gs h
    unfold message_parse at h
    cases hfm : firstMatch regexTable msg with
    | none => rw [hfm] at h; simp at h
    | some km =>
      rw [hfm] at h
      simp only [Except.ok.injEq] at h
      subst h
      exact (firstMatch_some_iff _ _ _ _).mp hfm
  · intro msg hall
    unfold message_parse
    rw [(firstMatch_none_iff _ _).mpr hall]
  · intro msg e h
    unfold message_parse at h
    cases hfm : firstMatch regexTable msg with
    | none =>
      rw [hfm] at h
      simp only [Except.error.injEq] at h
      exact ⟨h.symm, (firstMatch_none_iff _ _).mp hfm⟩
    | some km => rw [hfm] at h; simp at h

/-- Claim C4 witness: `"error:3"` is classified by the second table entry
(`error`), with the `ok` pattern failing on it first, and the unmatched line
`"!?"` fails with the unrecognized-response error. -/
theorem c4_classification_witness :
    (∃ pre m post, regexTable = pre ++ (("error"), m) :: post ∧
      m (("error:3").data) = some [("3").data] ∧
      ∀ p ∈ pre, p.2 (("error:3").data) = none) ∧
    message_parse (("!?").data) =
      Except.error (TableExc.unrecognized (("!?").data)) :=
  ⟨c4_classification.2.1 (("error:3").data) (("error")) [("3").data] rfl,
   c4_classification.2.2.1 (("!?").data) (by decide)⟩

/-- Claim C7: the line `"error:3"` makes the input loop raise `GrblError`
with code `"3"` (the request cycle fails); for any error table mapping code
`"3"` to description `d`, the constructed `GrblError` message contains `d`
as a substring; and looking up a code absent from the table fails loudly
(`KeyError`, modelled as `none`) instead of defaulting.
The error-code CSV file is not part of src/, so the table itself is
modelled from the spec as an abstract immutable map. -/
theorem c7_error_lookup (table : List Char → Option (List Char))
    (d : List Char) (h3 : table (("3").data) = some d) :
    (serial_input_run [("error:3").data] =
      ([], some (TableExc.grblError (("3").data)))) ∧
    (∃ msg, grblErrorMessage table (("3").data) = some msg ∧
      ∃ a b, msg = a ++ d ++ b) ∧
    (∀ i, table i = none → grblErrorMessage table i = none) := by
  refine ⟨by decide, ?_, ?_⟩
  · refine ⟨("Error ").data ++ ("3").data ++ (": ").data ++ d, ?_,
      ("Error ").data ++ ("3").data ++ (": ").data, [], by simp⟩
    unfold grblErrorMessage
    rw [h3]
    simp [List.append_assoc]
  · intro i hi
    unfold grblErrorMessage
    rw [hi]
    rfl

/-- Claim C7 witness: the lookup instantiated with a one-entry table mapping
code 3 to a concrete description. -/
theorem c7_error_lookup_witness :
    (serial_input_run [("error:3").data] =
      ([], some (TableExc.grblError (("3").data)))) ∧
    (∃ msg, grblErrorMessage
        (fun i => if i = ("3").data then some (("desc three").data) else none)
        (("3").data) = some msg ∧
      ∃ a b, msg = a ++ (("desc three").data) ++ b) ∧
    (∀ i, (fun i => if i = ("3").data then some (("desc three").data) else none) i
        = none →
      grblErrorMessage
        (fun i => if i = ("3").data then some (("desc three").data) else none) i
        = none) :=
  c7_error_lookup
    (fun i => if i = ("3").data then some (("desc three").data) else none)
    (("desc three").data) (by simp)

/-- Claim C9: a command submitted to `IOBase.command` while the stop event is
set is dropped silently — whatever `get_response` requests and whatever is
in the inbound queue, nothing is enqueued, no exception is raised, and the
caller simply receives `None`, indistinguishable from a no-response call. -/
theorem c9_command_after_stop (getResponse : Bool) (inq : Option (List Char))
    (cmd : List Char) :
    iobase_command true getResponse inq cmd = (CmdResult.ret none, false) := by
  rfl

/-- Claim C1 counterexample: `SerialConnection`'s input loop raises
`GrblError "3"` on the line `"error:3"`, but its `disconnect` joins plain
`threading.Thread`s, which surface nothing (`Except.ok ()`); the next
`command` call then raises only `TimeOutError` — a different exception, so
the loop's exception is never re-raised to the owning caller. -/
theorem c1_counterexample :
    ((serial_input_run [("error:3").data]).2 =
      some (TableExc.grblError (("3").data))) ∧
    (serial_disconnect [(serial_input_run [("error:3").data]).2] =
      Except.ok ()) ∧
    (serial_command [] = Except.error TableExc.timeOut) ∧
    (TableExc.timeOut ≠ TableExc.grblError (("3").data)) := by
  exact ⟨by decide, rfl, rfl, by decide⟩

/-- Claim C1 amended: exception propagation holds for the generic `IOBase`
engine — its `disconnect` joins `ExceptionThread`s, re-raising the first
stored loop exception (and returning normally only when no loop failed) —
but NOT for the `ControlSocket`/`SerialConnection` engines, whose
`disconnect` joins plain threads and therefore never re-raises a loop
exception. -/
theorem c1_amended :
    (∀ excs : List (Option TableExc), (∀ x ∈ excs, x = none) →
      iobase_disconnect excs = Except.ok ()) ∧
    (∀ (pre : List (Option TableExc)) (e : TableExc)
      (post : List (Option TableExc)), (∀ x ∈ pre, x = none) →
      iobase_disconnect (pre ++ some e :: post) = Except.error e) ∧
    (∀ excs : List (Option TableExc), serial_disconnect excs = Except.ok ()) := by
  refine ⟨?_, ?_, ?_⟩
  · intro excs h
    induction excs with
    | nil => rfl
    | cons x rest ih =>
      have hx : x = none := h x (List.mem_cons_self _ _)
      subst hx
      exact ih fun y hy => h y (List.mem_cons_of_mem _ hy)
  · intro pre e post h
    induction pre with
    | nil => rfl
    | cons x rest ih =>
      have hx : x = none := h x (List.mem_cons_self _ _)
      subst hx
      exact ih fun y hy => h y (List.mem_cons_of_mem _ hy)
  · intro excs
    induction excs with
    | nil => rfl
    | cons x rest ih =>
      show serial_disconnect (x :: rest) = Except.ok ()
      unfold serial_disconnect plain_thread_join
      exact ih

/-- Claim C1 amended witness: one clean thread followed by a failed one —
`IOBase.disconnect` re-raises the stored exception, the serial `disconnect`
does not. -/
theorem c1_amended_witness :
    iobase_disconnect [none, some (TableExc.grblError (("3").data))] =
      Except.error (TableExc.grblError (("3").data)) ∧
    serial_disconnect [some (TableExc.grblError (("3").data))] =
      Except.ok () :=
  ⟨c1_amended.2.1 [none] (TableExc.grblError (("3").data)) [] (by simp),
   c1_amended.2.2 [some (TableExc.grblError (("3").data))]⟩

/-- Claim C6: the line decoder, given the raw line `"$VER1.0OK\r\n"` for the
sent command `"VER"`, strips the CR/LF, the `OK` terminator (in the input
loop) and the `$`-prefixed command echo (in `command`), returning the
payload `"1.0"`; a dequeued success line whose echo does not match the sent
command fails with the unexpected-response error. -/
theorem c6_line_decoder :
    (control_input_line (("$VER1.0OK\r\n").data) =
      Except.ok (some (("$VER1.0").data))) ∧
    (control_command (("VER").data) (some (("$VER1.0").data)) =
      Except.ok (("1.0").data)) ∧
    (∀ cmd ans : List Char, ('$' :: cmd).isPrefixOf ans = false →
      control_command cmd (some ans) =
        Except.error (CtrlExc.unexpectedAnswer ans cmd)) := by
  refine ⟨rfl, rfl, ?_⟩
  intro cmd ans h
  unfold control_command
  dsimp only
  rw [if_neg (by simp [h])]

/-- Claim C6 witness: an answer echoing `FOO` for the command `VER` is
rejected. -/
theorem c6_line_decoder_witness :
    control_command (("VER").data) (some (("$FOO1.0").data)) =
      Except.error (CtrlExc.unexpectedAnswer (("$FOO1.0").data) (("VER").data)) :=
  c6_line_decoder.2.2 (("VER").data) (("$FOO1.0").data) (by decide)

theorem serial_input_line_some {raw : List Char}
    {mv : String × List (List Char)}
    (h : serial_input_line raw = Except.ok (some mv)) :
    mv.1 ∈ [("ok"), ("welcome_message"), ("setting"), ("startup_lines"),
            ("message"), ("startup_execution"), ("status")] := by
  unfold serial_input_line at h
  by_cases hr : raw = []
  · rw [if_pos hr] at h; simp at h
  · rw [if_neg hr] at h
    cases hp : message_parse (pyStripCRLF raw) with
    | error e => rw [hp] at h; simp at h
    | ok kv =>
      obtain ⟨key, value⟩ := kv
      rw [hp] at h
      dsimp only at h
      by_cases h1 : key = ("error")
      · rw [if_pos h1] at h; simp at h
      rw [if_neg h1] at h
      by_cases h2 : key = ("alarm")
      · rw [if_pos h2] at h; simp at h
      rw [if_neg h2] at h
      by_cases h3 : key = ("empty")
      · rw [if_pos h3] at h; simp at h
      rw [if_neg h3] at h
      simp only [Except.ok.injEq, Option.some.injEq] at h
      subst h
      have hkey : key ∈ regexTable.map Prod.fst := by
        unfold message_parse at hp
        cases hfm : firstMatch regexTable (pyStripCRLF raw) with
        | none => rw [hfm] at hp; simp at hp
        | some km =>
          rw [hfm] at hp
          simp only [Except.ok.injEq] at hp
          subst hp
          obtain ⟨pre, m, post, heq, -, -⟩ := (firstMatch_some_iff _ _ _ _).mp hfm
          rw [heq]
          simp
      simp only [List.map_cons, regexTable, List.map_nil, List.mem_cons,
        List.not_mem_nil, or_false] at hkey
      rcases hkey with rfl | rfl | rfl | rfl | rfl | rfl | rfl | rfl | rfl | rfl
      · simp
      · exact absurd rfl h1
      · simp
      · exact absurd rfl h2
      · simp
      · simp
      · simp
      · simp
      · simp
      · exact absurd rfl h3

theorem serial_command_mem :
    ∀ (inq ans : List (String × List (List Char))),
    serial_command inq = Except.ok ans → ∀ mv ∈ ans, mv ∈ inq := by
  intro inq
  induction inq with
  | nil => intro ans h; simp [serial_command] at h
  | cons m rest ih =>
    intro ans h mv hmv
    unfold serial_command at h
    by_cases hok : m.1 = ("ok")
    · rw [if_pos hok] at h
      simp only [Except.ok.injEq] at h
      subst h
      simp only [List.mem_singleton] at hmv
      subst hmv
      exact List.mem_cons_self _ _
    · rw [if_neg hok] at h
      cases hrest : serial_command rest with
      | error e => rw [hrest] at h; simp [Except.map] at h
      | ok ans' =>
        rw [hrest] at h
        simp only [Except.map, Except.ok.injEq] at h
        subst h
        rcases List.mem_cons.mp hmv with rfl | hmv'
        · exact List.mem_cons_self _ _
        · exact List.mem_cons_of_mem _ (ih ans' hrest mv hmv')

/-- Claim C10: over any schedule of received lines, the serial input loop
enqueues ONLY messages of the seven non-terminal kinds (ok, welcome_message,
setting, startup_lines, message, startup_execution, status); consequently no
answer assembled by `command` ever contains an error, alarm or empty
message; a line classified `empty` is silently dropped, and a line
classified `error` raises `GrblError` inside the loop instead of being
enqueued. -/
theorem c10_enqueued_kinds (lines : List (List Char)) :
    (∀ mv ∈ (serial_input_run lines).1,
      mv.1 ∈ [("ok"), ("welcome_message"), ("setting"), ("startup_lines"),
              ("message"), ("startup_execution"), ("status")]) ∧
    (∀ ans, serial_command ((serial_input_run lines).1) = Except.ok ans →
      ∀ mv ∈ ans, mv.1 ≠ ("error") ∧ mv.1 ≠ ("alarm") ∧ mv.1 ≠ ("empty")) ∧
    (∀ (raw : List Char) (v : List (List Char)), raw ≠ [] →
      message_parse (pyStripCRLF raw) = Except.ok (("empty"), v) →
      serial_input_line raw = Except.ok none) ∧
    (∀ (raw : List Char) (v : List (List Char)), raw ≠ [] →
      message_parse (pyStripCRLF raw) = Except.ok (("error"), v) →
      serial_input_line raw = Except.error (TableExc.grblError (v.headD []))) := by
  have hrun : ∀ mv ∈ (serial_input_run lines).1,
      mv.1 ∈ [("ok"), ("welcome_message"), ("setting"), ("startup_lines"),
              ("message"), ("startup_execution"), ("status")] := by
    induction lines with
    | nil => intro mv hmv; simp [serial_input_run] at hmv
    | cons l ls ih =>
      intro mv hmv
      unfold serial_input_run at hmv
      cases hline : serial_input_line l with
      | error e => rw [hline] at hmv; simp at hmv
      | ok o =>
        cases o with
        | none =>
          rw [hline] at hmv
          exact ih mv hmv
        | some m =>
          rw [hline] at hmv
          dsimp only at hmv
          rcases List.mem_cons.mp hmv with rfl | hmv'
          · exact serial_input_line_some hline
          · exact ih mv hmv'
  refine ⟨hrun, ?_, ?_, ?_⟩
  · intro ans hans mv hmv
    have hm := hrun mv (serial_command_mem _ _ hans mv hmv)
    simp only [List.mem_cons, List.not_mem_nil, or_false] at hm
    rcases hm with h | h | h | h | h | h | h <;> rw [h] <;>
      exact ⟨by decide, by decide, by decide⟩
  · intro raw v hraw hp
    unfold serial_input_line
    rw [if_neg hraw, hp]
    dsimp only
    rw [if_neg (by decide), if_neg (by decide), if_pos rfl]
  · intro raw v hraw hp
    unfold serial_input_line
    rw [if_neg hraw, hp]
    dsimp only
    rw [if_pos rfl]

/-- Claim C10 witness: a run containing a setting line, an empty line, an
`ok` line — only the setting and ok messages are enqueued and the assembled
answer contains neither error nor alarm nor empty kinds; plus the
empty-dropped and error-raises facts at concrete lines. -/
theorem c10_enqueued_kinds_witness :
    (∀ mv ∈ (serial_input_run
        [("$10=5\r\n").data, ("\r\n").data, ("ok\r\n").data]).1,
      mv.1 ∈ [("ok"), ("welcome_message"), ("setting"), ("startup_lines"),
              ("message"), ("startup_execution"), ("status")]) ∧
    serial_input_line (("\r\n").data) = Except.ok none ∧
    serial_input_line (("error:3").data) =
      Except.error (TableExc.grblError (("3").data)) :=
  ⟨(c10_enqueued_kinds
      [("$10=5\r\n").data, ("\r\n").data, ("ok\r\n").data]).1,
   (c10_enqueued_kinds []).2.2.1 (("\r\n").data) [] (by decide) rfl,
   (c10_enqueued_kinds []).2.2.2 (("error:3").data) [("3").data] (by decide) rfl⟩
